import Mathlib

/-!
Shallow embedding of the `ton_wallet_client` package
(`src/python_contract/ton_wallet_client/{types,wallet,client,error}.py`).

Python `bytes` values are modelled as `List Nat` with every entry `< 256`
(the bound is carried as a hypothesis where a theorem needs it, since
Python's `bytes` type guarantees it); Python `str` values are modelled as
`List Char`.  Fallible Python operations (exceptions) return `Except Err`.

Modelling notes for the standard-library functions the code calls, each
checked against CPython 3.11.6:
  * `struct.pack` range-checks its argument and errors outside the format's
    range; `">I"`, `">Q"`, `"B"`, `"b"` are modelled by `packU32`,
    `packU64`, `packU8`, `packI8`.
  * `int(s)` is modelled by `pythonInt`: the argument is first transformed
    character-wise (Unicode decimal digits — category Nd, 66 runs of ten
    consecutive codepoints — become their value's ASCII digit, Unicode
    whitespace becomes a space, other non-ASCII characters make parsing
    fail), then ASCII whitespace is stripped from both ends, then an
    optional single ASCII sign is followed by decimal digits with single
    underscores allowed between digits.  The whitespace and digit tables
    were extracted by exhaustively scanning `int()` over all codepoints.
  * `bytes.fromhex` is modelled by `hexPairs`: pairs of hex digits (either
    case) with ASCII whitespace skipped between pairs (not inside a pair),
    and any other character an error.
  * `base64.urlsafe_b64decode(s + "==")` / `base64.b64decode(s + "==")`
    (lenient mode, as the code calls them) are modelled by `b64DecodeUrl` /
    `b64DecodeStd` over `a2b64`, transcribing `binascii.a2b_base64`'s
    non-strict loop: non-ASCII input is an error (the `str.encode("ascii")`
    step), characters outside the alphabet are skipped, a `=` is counted
    once the current group has at least two characters and ends the data
    as soon as group + pads reaches four (flushing the partial group and
    ignoring the rest), and leftover group characters at the end of input
    are an error (1 modulo 4, or missing padding).
  * `hashlib.sha256` and `os.urandom` appear only in `TransferMessage.hash`
    / `Wallet.sign` / `WalletClient.send`; the digest is abstracted as a
    function parameter (only its 32-byte output length matters to the
    code), and `os.urandom` as an entropy-source parameter `seed` from
    which `os.urandom(64)` draws 64 bytes.
-/

namespace TonWallet

/-- Error values, mirroring `error.py` plus the built-in Python exceptions
the package can raise (`ValueError` from length checks and `int()`, and
`struct.error` from `struct.pack`). -/
inductive Err where
  | invalidAddressError (msg : String)
  | signatureError
  | valueError (msg : String)
  | structError
  | configurationError (msg : String)
deriving DecidableEq, Repr

/-- Decimal digit test on a character (`'0'` .. `'9'`). -/
def isDig (c : Char) : Bool := 48 ≤ c.toNat && c.toNat ≤ 57

/-- The decimal digit character for `n` (callers only use `n < 10`). -/
def digitChar (n : Nat) : Char :=
  if n = 0 then '0' else if n = 1 then '1' else if n = 2 then '2'
  else if n = 3 then '3' else if n = 4 then '4' else if n = 5 then '5'
  else if n = 6 then '6' else if n = 7 then '7' else if n = 8 then '8' else '9'

/-- Decimal rendering of a natural number, mirroring Python `str(n)` for
`n ≥ 0`. -/
def natStr (n : Nat) : List Char :=
  if n < 10 then [digitChar n]
  else natStr (n / 10) ++ [digitChar (n % 10)]
termination_by n
decreasing_by exact Nat.div_lt_self (by omega) (by omega)

/-- Decimal rendering of an integer, mirroring Python `str(i)` /
f-string interpolation of an `int`. -/
def intStr (i : Int) : List Char :=
  if i < 0 then '-' :: natStr i.natAbs else natStr i.natAbs

/-- Value of a digit string (callers check the digits first). -/
def digitsToNat (cs : List Char) : Nat :=
  cs.foldl (fun acc c => acc * 10 + (c.toNat - 48)) 0

/-- ASCII whitespace (tab through carriage return, and space): the set
`int()` strips after its transform, and the set `bytes.fromhex` skips
between byte pairs (both verified by scanning CPython 3.11). -/
def isAsciiWs (c : Char) : Bool := c.toNat = 32 || (9 ≤ c.toNat && c.toNat ≤ 13)

/-- The codepoints `int()` treats as whitespace to strip (scanned from
CPython 3.11: exactly the characters `c` with `int(c + "5") = 5` that are
not digits or signs). -/
def isPyIntSpace (c : Char) : Bool :=
  isAsciiWs c || c.toNat = 133 || c.toNat = 160 || c.toNat = 5760 ||
  (8192 ≤ c.toNat && c.toNat ≤ 8202) || c.toNat = 8232 || c.toNat = 8233 ||
  c.toNat = 8239 || c.toNat = 8287 || c.toNat = 12288

/-- First codepoint of every run of ten consecutive Unicode decimal
digits (category Nd) with values 0..9, scanned exhaustively from
CPython 3.11's `int()`. -/
def ndRunStarts : List Nat :=
  [48, 1632, 1776, 1984, 2406, 2534, 2662, 2790, 2918, 3046, 3174, 3302,
   3430, 3558, 3664, 3792, 3872, 4160, 4240, 6112, 6160, 6470, 6608,
   6784, 6800, 6992, 7088, 7232, 7248, 42528, 43216, 43264, 43472, 43504,
   43600, 44016, 65296, 66720, 68912, 69734, 69872, 69942, 70096, 70384,
   70736, 70864, 71248, 71360, 71472, 71904, 72016, 72784, 73040, 73120,
   92768, 92864, 93008, 120782, 120792, 120802, 120812, 120822, 123200,
   123632, 125264, 130032]

/-- Decimal-digit value of a Unicode character, as `int()` accepts it. -/
def digitValNd (c : Char) : Option Nat :=
  (ndRunStarts.find? (fun s => s ≤ c.toNat && c.toNat ≤ s + 9)).map
    (fun s => c.toNat - s)

/-- The character-wise transform `int()` applies to a `str` argument:
Unicode decimal digits become their value's ASCII digit, Unicode
whitespace becomes a space, ASCII passes through, anything else makes
the whole parse fail. -/
def pyIntChar (c : Char) : Option Char :=
  if c.toNat < 128 then some c
  else
    match digitValNd c with
    | some d => some (digitChar d)
    | none => if isPyIntSpace c then some ' ' else none

/-- Apply `pyIntChar` across the string, failing if any character does. -/
def pyIntTransform : List Char → Option (List Char)
  | [] => some []
  | c :: rest =>
    match pyIntChar c, pyIntTransform rest with
    | some c1, some t => some (c1 :: t)
    | _, _ => none

/-- Strip ASCII whitespace from both ends. -/
def stripAsciiWs (cs : List Char) : List Char :=
  ((cs.dropWhile isAsciiWs).reverse.dropWhile isAsciiWs).reverse

/-- Digit run with single underscores allowed between digits, continuing
an already-read digit accumulator. -/
def digitsURun (acc : Nat) : List Char → Option Nat
  | [] => some acc
  | c :: rest =>
    if c = '_' then
      match rest with
      | c2 :: rest2 =>
        if isDig c2 then digitsURun (acc * 10 + (c2.toNat - 48)) rest2
        else none
      | [] => none
    else if isDig c then digitsURun (acc * 10 + (c.toNat - 48)) rest
    else none

/-- A nonempty digit run (with underscore grouping) as a natural number. -/
def digitsU : List Char → Option Nat
  | [] => none
  | c :: rest => if isDig c then digitsURun (c.toNat - 48) rest else none

/-- Model of Python `int(s)` (see the modelling notes above). -/
def pythonInt (cs : List Char) : Option Int :=
  match pyIntTransform cs with
  | none => none
  | some t =>
    match stripAsciiWs t with
    | [] => none
    | c :: rest =>
      if c = '-' then (digitsU rest).map (fun (n : Nat) => -(n : Int))
      else if c = '+' then (digitsU rest).map (fun (n : Nat) => (n : Int))
      else (digitsU (c :: rest)).map (fun (n : Nat) => (n : Int))

/-- Lowercase hex digit character for `n < 16`. -/
def hexDigitChar (n : Nat) : Char :=
  if n = 0 then '0' else if n = 1 then '1' else if n = 2 then '2'
  else if n = 3 then '3' else if n = 4 then '4' else if n = 5 then '5'
  else if n = 6 then '6' else if n = 7 then '7' else if n = 8 then '8'
  else if n = 9 then '9' else if n = 10 then 'a' else if n = 11 then 'b'
  else if n = 12 then 'c' else if n = 13 then 'd' else if n = 14 then 'e'
  else 'f'

/-- Model of Python `bytes.hex()`: two lowercase hex digits per byte. -/
def hexOfBytes : List Nat → List Char
  | [] => []
  | b :: bs => hexDigitChar (b / 16) :: hexDigitChar (b % 16) :: hexOfBytes bs

/-- Value of a hex digit character, either case. -/
def hexCharVal (c : Char) : Option Nat :=
  if 48 ≤ c.toNat ∧ c.toNat ≤ 57 then some (c.toNat - 48)
  else if 97 ≤ c.toNat ∧ c.toNat ≤ 102 then some (c.toNat - 87)
  else if 65 ≤ c.toNat ∧ c.toNat ≤ 70 then some (c.toNat - 55)
  else none

/-- Model of Python `bytes.fromhex` (CPython 3.11): pairs of hex digits,
skipping ASCII whitespace between pairs but not inside a pair; any other
character is an error. -/
def hexPairs : List Char → Option (List Nat)
  | [] => some []
  | c :: rest =>
    if isAsciiWs c then hexPairs rest
    else
      match hexCharVal c with
      | none => none
      | some h =>
        match rest with
        | [] => none
        | c2 :: rest2 =>
          match hexCharVal c2 with
          | none => none
          | some l => (hexPairs rest2).map (fun bs => (h * 16 + l) :: bs)

/-- Model of Python `s.split(":")` (returns at least one piece). -/
def splitColon : List Char → List (List Char)
  | [] => [[]]
  | c :: rest =>
    if c = ':' then [] :: splitColon rest
    else
      match splitColon rest with
      | p :: ps => (c :: p) :: ps
      | [] => [[c]]

/-- Six-bit value of a standard-alphabet base64 character. -/
def b64ValStd (c : Char) : Option Nat :=
  if 65 ≤ c.toNat ∧ c.toNat ≤ 90 then some (c.toNat - 65)
  else if 97 ≤ c.toNat ∧ c.toNat ≤ 122 then some (c.toNat - 71)
  else if 48 ≤ c.toNat ∧ c.toNat ≤ 57 then some (c.toNat + 4)
  else if c = '+' then some 62
  else if c = '/' then some 63
  else none

/-- The URL-safe alphabet translation applied by `urlsafe_b64decode`. -/
def urlTrans (c : Char) : Char :=
  if c = '-' then '+' else if c = '_' then '/' else c

/-- Bytes of a partial base64 group when padding ends the data: two
characters give one byte, three give two. -/
def flushQuad : List Nat → List Nat
  | [a, b] => [a * 4 + b / 16]
  | [a, b, c] => [a * 4 + b / 16, (b % 16) * 16 + c / 4]
  | _ => []

/-- Transcription of `binascii.a2b_base64`'s non-strict loop (CPython
3.11): `quad` is the current group of six-bit values (at most three),
`pads` the running pad count, `acc` the decoded bytes.  A `=` counts
once the group has at least two characters, and data ends as soon as
group + pads reaches four; characters outside the alphabet are skipped
(resetting nothing), a valid character resets the pad count; leftover
group characters at the end of input are an error. -/
def a2b64 (alpha : Char → Option Nat) :
    List Char → List Nat → Nat → List Nat → Option (List Nat)
  | [], quad, _, acc => if quad.isEmpty then some acc else none
  | c :: rest, quad, pads, acc =>
    if c = '=' then
      if 2 ≤ quad.length then
        if 4 ≤ quad.length + pads + 1 then some (acc ++ flushQuad quad)
        else a2b64 alpha rest quad (pads + 1) acc
      else a2b64 alpha rest quad pads acc
    else
      match alpha c with
      | none => a2b64 alpha rest quad pads acc
      | some v =>
        match quad with
        | [a, b, c3] =>
          a2b64 alpha rest [] 0
            (acc ++ [a * 4 + b / 16, (b % 16) * 16 + c3 / 4,
                     (c3 % 4) * 64 + v])
        | _ => a2b64 alpha rest (quad ++ [v]) 0 acc

/-- Python `str.encode("ascii")` succeeds exactly on ASCII codepoints. -/
def asciiOnly (cs : List Char) : Bool := cs.all (fun c => c.toNat < 128)

/-- Model of `base64.urlsafe_b64decode(s + "==")` as the code calls it:
ASCII check, alternative-alphabet translation, then the lenient loop. -/
def b64DecodeUrl (cs : List Char) : Option (List Nat) :=
  if asciiOnly cs then
    a2b64 (fun c => b64ValStd (urlTrans c)) (cs ++ ['=', '=']) [] 0 []
  else none

/-- Model of `base64.b64decode(s + "==")` as the code calls it. -/
def b64DecodeStd (cs : List Char) : Option (List Nat) :=
  if asciiOnly cs then a2b64 b64ValStd (cs ++ ['=', '=']) [] 0 []
  else none

/-- Signed interpretation of a byte, mirroring `struct.unpack("b", ...)`. -/
def signedByte (b : Nat) : Int :=
  if b < 128 then (b : Int) else (b : Int) - 256

/-- Big-endian bytes of a 32-bit value (callers only use `n < 2^32`). -/
def u32be (n : Nat) : List Nat :=
  [n / 16777216 % 256, n / 65536 % 256, n / 256 % 256, n % 256]

/-- Big-endian bytes of a 64-bit value (callers only use `n < 2^64`). -/
def u64be (n : Nat) : List Nat :=
  [n / 72057594037927936 % 256, n / 281474976710656 % 256,
   n / 1099511627776 % 256, n / 4294967296 % 256,
   n / 16777216 % 256, n / 65536 % 256, n / 256 % 256, n % 256]

/-- Model of `struct.pack(">I", n)`: range check, then 4 big-endian bytes. -/
def packU32 (n : Int) : Except Err (List Nat) :=
  if 0 ≤ n ∧ n < 4294967296 then .ok (u32be n.toNat) else .error .structError

/-- Model of `struct.pack(">Q", n)`: range check, then 8 big-endian bytes. -/
def packU64 (n : Int) : Except Err (List Nat) :=
  if 0 ≤ n ∧ n < 18446744073709551616 then .ok (u64be n.toNat)
  else .error .structError

/-- Model of `struct.pack("B", n)`: range check, then the byte itself. -/
def packU8 (n : Int) : Except Err (List Nat) :=
  if 0 ≤ n ∧ n < 256 then .ok [n.toNat] else .error .structError

/-- Model of `struct.pack("b", n)`: signed range check, then the byte in
two's complement. -/
def packI8 (n : Int) : Except Err (List Nat) :=
  if -128 ≤ n ∧ n < 128 then .ok [(n % 256).toNat] else .error .structError

/-- UTF-8 bytes of one Unicode scalar value. -/
def utf8EncodeChar (n : Nat) : List Nat :=
  if n < 128 then [n]
  else if n < 2048 then [192 + n / 64, 128 + n % 64]
  else if n < 65536 then [224 + n / 4096, 128 + n / 64 % 64, 128 + n % 64]
  else [240 + n / 262144, 128 + n / 4096 % 64, 128 + n / 64 % 64, 128 + n % 64]

/-- Model of Python `s.encode("utf-8")`. -/
def utf8Encode : List Char → List Nat
  | [] => []
  | c :: cs => utf8EncodeChar c.toNat ++ utf8Encode cs

/-! ## `types.py` -/

/-- `Address` from `types.py`: `raw` models the 32 `bytes`, `workchain`
the Python `int`.  The derived `friendly` string set by `__post_init__`
is a function of these two fields (nothing in the package ever assigns
it independently), so it is modelled as `Address.friendly` below. -/
structure Address where
  raw : List Nat
  workchain : Int
deriving DecidableEq, Repr

/-- The dataclass constructor `Address(raw=..., workchain=...)` together
with `__post_init__`: fails unless `raw` is exactly 32 bytes. -/
def Address.make (raw : List Nat) (workchain : Int) : Except Err Address :=
  if raw.length = 32 then .ok ⟨raw, workchain⟩
  else .error (.invalidAddressError "Address must be 32 bytes")

/-- `Address.to_hex`: the same `"{workchain}:{raw.hex()}"` rendering. -/
def Address.to_hex (a : Address) : List Char :=
  intStr a.workchain ++ ':' :: hexOfBytes a.raw

/-- Prefix dispatch of `Address.from_friendly`: does the string start with
`EQ`, `kQ`, `Ef` or `UQ`? -/
def hasB64Start (cs : List Char) : Bool :=
  match cs with
  | c1 :: c2 :: _ =>
    (c1 == 'E' && c2 == 'Q') || (c1 == 'k' && c2 == 'Q') ||
    (c1 == 'E' && c2 == 'f') || (c1 == 'U' && c2 == 'Q')
  | _ => false

/-- `Address._from_base64`: lenient base64 decode (URL-safe alphabet
first, standard as fallback), require exactly 36 decoded bytes, extract
the signed workchain byte and the 32 address bytes. -/
def Address.from_base64 (address : List Char) : Except Err Address :=
  match b64DecodeUrl address with
  | some decoded =>
    if decoded.length = 36 then
      Address.make ((decoded.drop 2).take 32) (signedByte (decoded.getD 1 0))
    else .error (.invalidAddressError "Invalid address length")
  | none =>
    match b64DecodeStd address with
    | some decoded =>
      if decoded.length = 36 then
        Address.make ((decoded.drop 2).take 32) (signedByte (decoded.getD 1 0))
      else .error (.invalidAddressError "Invalid address length")
    | none => .error (.invalidAddressError "Invalid base64 encoding")

/-- `Address.from_friendly`: dispatch on the base64 prefixes, otherwise on
the presence of `:`, mirroring the source's checks in order. -/
def Address.from_friendly (address : List Char) : Except Err Address :=
  if hasB64Start address then Address.from_base64 address
  else if ':' ∈ address then
    match splitColon address with
    | [p0, p1] =>
      match pythonInt p0 with
      | none => .error (.invalidAddressError "Invalid workchain")
      | some workchain =>
        match hexPairs p1 with
        | none => .error (.invalidAddressError "Invalid hex in address")
        | some raw_bytes =>
          if raw_bytes.length = 32 then Address.make raw_bytes workchain
          else .error (.invalidAddressError "Address must be 32 bytes")
    | _ => .error (.invalidAddressError "Invalid address format")
  else .error (.invalidAddressError "Unrecognized address format")

/-- Well-formedness that the Python `bytes` type guarantees for `raw` of
any `Address` the interpreter can construct: 32 entries, each a byte. -/
def Address.WF (a : Address) : Prop :=
  a.raw.length = 32 ∧ ∀ b ∈ a.raw, b < 256

instance (a : Address) : Decidable a.WF := by
  unfold Address.WF; infer_instance

/-- `KeyPair` from `types.py`. -/
structure KeyPair where
  secret_key : List Nat
  public_key : List Nat
deriving DecidableEq, Repr

/-- The `KeyPair` constructor with its two length checks. -/
def KeyPair.make (secret_key public_key : List Nat) : Except Err KeyPair :=
  if secret_key.length ≠ 32 then .error (.valueError "Secret key must be 32 bytes")
  else if public_key.length ≠ 32 then .error (.valueError "Public key must be 32 bytes")
  else .ok ⟨secret_key, public_key⟩

/-- `TransferParams` from `types.py` (the `valid_until` default involves
wall-clock time, so construction always supplies it explicitly here). -/
structure TransferParams where
  «to» : Address
  amount : Int
  comment : Option (List Char)
  send_mode : Int
  valid_until : Int
deriving DecidableEq, Repr

/-- `WalletState` from `types.py`. -/
structure WalletState where
  balance : Int
  seqno : Int
  is_deployed : Bool
  last_transaction_lt : Option Int
deriving DecidableEq, Repr

/-- `TransactionResult` from `types.py`. -/
structure TransactionResult where
  hash : List Char
  lt : Int
  fee : Int
  success : Bool
  error : Option (List Char)
deriving DecidableEq, Repr

/-! ## `wallet.py` -/

/-- `TransferMessage` from `wallet.py`. -/
structure TransferMessage where
  seqno : Int
  valid_until : Int
  send_mode : Int
  destination : Address
  amount : Int
  comment : Option (List Char)
deriving DecidableEq, Repr

/-- The bytes contributed by the optional comment: Python appends
`comment.encode("utf-8")` only when `self.comment` is truthy, i.e. the
comment is present and non-empty. -/
def commentBytes : Option (List Char) → List Nat
  | some c => if c ≠ [] then utf8Encode c else []
  | none => []

/-- `TransferMessage.to_bytes`: the `struct.pack` parts in source order,
joined with no separators; any out-of-range field raises `struct.error`. -/
def TransferMessage.to_bytes (m : TransferMessage) : Except Err (List Nat) :=
  match packU32 m.seqno with
  | .error e => .error e
  | .ok p1 =>
    match packU32 m.valid_until with
    | .error e => .error e
    | .ok p2 =>
      match packU8 m.send_mode with
      | .error e => .error e
      | .ok p3 =>
        match packI8 m.destination.workchain with
        | .error e => .error e
        | .ok p4 =>
          match packU64 m.amount with
          | .error e => .error e
          | .ok p6 =>
            .ok (p1 ++ p2 ++ p3 ++ p4 ++ m.destination.raw ++ p6 ++
                 commentBytes m.comment)

/-- `TransferMessage.hash`, with the SHA-256 digest abstracted as the
function parameter `sha256` (see the modelling notes). -/
def TransferMessage.hashWith (sha256 : List Nat → List Nat)
    (m : TransferMessage) : Except Err (List Nat) :=
  match m.to_bytes with
  | .error e => .error e
  | .ok message_bytes => .ok (sha256 message_bytes)

/-- `Wallet` from `wallet.py` (fields `_address`, `_key_pair`, `_seqno`). -/
structure Wallet where
  address : Address
  key_pair : Option KeyPair
  seqno : Int
deriving DecidableEq, Repr

/-- `Wallet.__init__`: stores the address and optional key pair and sets
the cached seqno to 0. -/
def Wallet.new (address : Address) (key_pair : Option KeyPair) : Wallet :=
  ⟨address, key_pair, 0⟩

/-- `Wallet.read_only`: `cls(address, None)`. -/
def Wallet.read_only (address : Address) : Wallet :=
  Wallet.new address none

/-- `Wallet.can_sign`: `self._key_pair is not None`. -/
def Wallet.can_sign (w : Wallet) : Bool :=
  w.key_pair.isSome

/-- The `seqno` property setter. -/
def Wallet.set_seqno (w : Wallet) (value : Int) : Wallet :=
  { w with seqno := value }

/-- `Wallet.create_transfer_message`: capability check, then copy the
cached seqno and the params fields into a new message. -/
def Wallet.create_transfer_message (w : Wallet) (params : TransferParams) :
    Except Err TransferMessage :=
  if ¬w.can_sign then .error .signatureError
  else .ok { seqno := w.seqno, valid_until := params.valid_until,
             send_mode := params.send_mode, destination := params.to,
             amount := params.amount, comment := params.comment }

/-- `Wallet.sign`: capability check, 32-byte hash length check, then the
placeholder `os.urandom(64)` signature, modelled as 64 bytes drawn from
the entropy-source parameter `seed`. -/
def Wallet.sign (w : Wallet) (seed : Nat → Nat) (message_hash : List Nat) :
    Except Err (List Nat) :=
  match w.key_pair with
  | none => .error .signatureError
  | some _ =>
    if message_hash.length ≠ 32 then
      .error (.valueError "Message hash must be 32 bytes")
    else .ok ((List.range 64).map (fun i => seed i % 256))

/-- `WalletBuilder` from `wallet.py`. -/
structure WalletBuilder where
  builderAddress : Option Address
  builderKeyPair : Option KeyPair
deriving DecidableEq, Repr

/-- `WalletBuilder.__init__`. -/
def WalletBuilder.new : WalletBuilder := ⟨none, none⟩

/-- `WalletBuilder.address`. -/
def WalletBuilder.withAddress (b : WalletBuilder) (address : Address) :
    WalletBuilder := { b with builderAddress := some address }

/-- `WalletBuilder.key_pair`. -/
def WalletBuilder.withKeyPair (b : WalletBuilder) (key_pair : KeyPair) :
    WalletBuilder := { b with builderKeyPair := some key_pair }

/-- `WalletBuilder.build`: requires an address (a dataclass instance is
always truthy in Python, so `not self._address` means exactly `None`). -/
def WalletBuilder.build (b : WalletBuilder) : Except Err Wallet :=
  match b.builderAddress with
  | none => .error (.configurationError "Wallet address is required")
  | some address => .ok (Wallet.new address b.builderKeyPair)

/-! ## `client.py` -/

/-- `Network` from `types.py`. -/
inductive Network where
  | mainnet
  | testnet
deriving DecidableEq, Repr

/-- `WalletClient` (only the network configuration is client state; none
of the modelled operations read it, as the ledger access is the mock). -/
structure WalletClient where
  network : Network
deriving DecidableEq, Repr

/-- One step of `WalletClient.send`; `fetchSeqno` is the only step that
touches the network (the `get_seqno` / `get_wallet_state` ledger query). -/
inductive SendStep where
  | fetchSeqno (address : List Char) (result : Int)
  | buildMessage (message : TransferMessage)
  | hashMessage (msg_hash : List Nat)
  | signHash (msg_hash : List Nat) (signature : List Nat)
deriving DecidableEq, Repr

/-- Is this step a network access? -/
def SendStep.isNetwork : SendStep → Bool
  | .fetchSeqno _ _ => true
  | _ => false

/-- `WalletClient.get_wallet_state`: parses/validates the address, then
returns the mock snapshot (`balance=0, seqno=0, is_deployed=False`). -/
def WalletClient.get_wallet_state (_client : WalletClient)
    (address : List Char) : Except Err WalletState :=
  match Address.from_friendly address with
  | .error e => .error e
  | .ok _ =>
    .ok { balance := 0, seqno := 0, is_deployed := false,
          last_transaction_lt := none }

/-- `WalletClient.get_seqno`: the seqno field of the wallet state. -/
def WalletClient.get_seqno (client : WalletClient) (address : List Char) :
    Except Err Int :=
  match client.get_wallet_state address with
  | .error e => .error e
  | .ok state => .ok state.seqno

/-- `WalletClient.send`, with the digest and entropy source abstracted as
parameters.  Returns the result, the list of steps performed in order,
and the wallet as left by the call (its `seqno` is the only thing the
source mutates). -/
def WalletClient.send (client : WalletClient) (sha256 : List Nat → List Nat)
    (seed : Nat → Nat) (wallet : Wallet) (params : TransferParams) :
    Except Err TransactionResult × List SendStep × Wallet :=
  if ¬wallet.can_sign then (.error .signatureError, [], wallet)
  else
    match client.get_seqno wallet.address.to_hex with
    | .error e => (.error e, [], wallet)
    | .ok current_seqno =>
      let wallet' := wallet.set_seqno current_seqno
      let steps0 := [SendStep.fetchSeqno wallet.address.to_hex current_seqno]
      match wallet'.create_transfer_message params with
      | .error e => (.error e, steps0, wallet')
      | .ok message =>
        let steps1 := steps0 ++ [SendStep.buildMessage message]
        match message.hashWith sha256 with
        | .error e => (.error e, steps1, wallet')
        | .ok msg_hash =>
          let steps2 := steps1 ++ [SendStep.hashMessage msg_hash]
          match wallet'.sign seed msg_hash with
          | .error e => (.error e, steps2, wallet')
          | .ok signature =>
            (.ok { hash := hexOfBytes msg_hash, lt := 0, fee := 0,
                   success := true, error := none },
             steps2 ++ [SendStep.signHash msg_hash signature], wallet')

/-! ## Auxiliary definitions for the verification -/

/-- Decidable equality of `Except` results, for evaluating concrete
runs of the fallible operations. -/
instance exceptDecEq {ε α : Type} [DecidableEq ε] [DecidableEq α] :
    DecidableEq (Except ε α) := fun x y =>
  match x, y with
  | .ok a, .ok b =>
    if h : a = b then .isTrue (by rw [h]) else .isFalse (by simp [h])
  | .error e, .error f =>
    if h : e = f then .isTrue (by rw [h]) else .isFalse (by simp [h])
  | .ok _, .error _ => .isFalse (by simp)
  | .error _, .ok _ => .isFalse (by simp)

/-- A lenient one-character UTF-8 decoder, used only as a left inverse of
the encoder in the injectivity proofs below. -/
def utf8DecodeOne : List Nat → Option (Nat × List Nat)
  | [] => none
  | b :: rest =>
    if b < 192 then some (b, rest)
    else if b < 224 then
      match rest with
      | b2 :: r => some ((b - 192) * 64 + (b2 - 128), r)
      | [] => none
    else if b < 240 then
      match rest with
      | b2 :: b3 :: r => some ((b - 224) * 4096 + (b2 - 128) * 64 + (b3 - 128), r)
      | _ => none
    else
      match rest with
      | b2 :: b3 :: b4 :: r =>
        some ((b - 240) * 262144 + (b2 - 128) * 4096 + (b3 - 128) * 64 + (b4 - 128), r)
      | _ => none

/-- Field ranges under which every `struct.pack` call in
`TransferMessage.to_bytes` succeeds (plus the 32-byte address payload the
Python `Address` invariant guarantees). -/
def MsgValid (m : TransferMessage) : Prop :=
  0 ≤ m.seqno ∧ m.seqno < 4294967296 ∧
  0 ≤ m.valid_until ∧ m.valid_until < 4294967296 ∧
  0 ≤ m.send_mode ∧ m.send_mode < 256 ∧
  -128 ≤ m.destination.workchain ∧ m.destination.workchain < 128 ∧
  m.destination.raw.length = 32 ∧
  0 ≤ m.amount ∧ m.amount < 18446744073709551616

instance (m : TransferMessage) : Decidable (MsgValid m) := by
  unfold MsgValid; infer_instance

/-- A comment value the source treats as falsy (absent): `None` or the
empty string. -/
def CommentAbsent : Option (List Char) → Prop
  | some c => c = []
  | none => True

instance (o : Option (List Char)) : Decidable (CommentAbsent o) := by
  unfold CommentAbsent
  cases o <;> infer_instance

/-- The byte string of the message `send` builds after refreshing the
wallet's seqno from the (mock) ledger, whose `get_seqno` returns 0: the
encoding of `TransferMessage(seqno=0, ...params fields...)`.  Used to
state the step-ordering claim about `send`. -/
def sendEncodedBytes (params : TransferParams) : List Nat :=
  u32be 0 ++ u32be params.valid_until.toNat ++ [params.send_mode.toNat] ++
  [(params.to.workchain % 256).toNat] ++ params.to.raw ++
  u64be params.amount.toNat ++ commentBytes params.comment

theorem isDig_digitChar (n : Nat) : isDig (digitChar n) = true := by
  unfold digitChar
  split_ifs <;> rfl

theorem toNat_digitChar (n : Nat) (h : n < 10) : (digitChar n).toNat = 48 + n := by
  interval_cases n <;> rfl

theorem natStr_key (n : Nat) :
    (natStr n ≠ [] ∧ (natStr n).all isDig = true) ∧
    ∀ acc : Nat,
      List.foldl (fun acc c => acc * 10 + (c.toNat - 48)) acc (natStr n)
        = acc * 10 ^ (natStr n).length + n := by
  induction n using Nat.strong_induction_on with
  | _ n ih =>
    by_cases h : n < 10
    · rw [natStr, if_pos h]
      refine ⟨⟨by simp, by simp [isDig_digitChar]⟩, ?_⟩
      intro acc
      simp [List.foldl, toNat_digitChar n h]
    · rw [natStr, if_neg h]
      have hlt : n / 10 < n := Nat.div_lt_self (by omega) (by omega)
      obtain ⟨⟨hne, hdig⟩, hfold⟩ := ih (n / 10) hlt
      refine ⟨⟨by simp, ?_⟩, ?_⟩
      · simp [List.all_append, hdig, isDig_digitChar]
      · intro acc
        rw [List.foldl_append, hfold acc]
        simp only [List.foldl, List.length_append, List.length_singleton,
          toNat_digitChar (n % 10) (Nat.mod_lt n (by omega))]
        have hg : acc * 10 ^ ((natStr (n / 10)).length + 1)
            = acc * 10 ^ (natStr (n / 10)).length * 10 := by ring
        rw [hg]
        generalize acc * 10 ^ (natStr (n / 10)).length = Q
        omega

theorem digitsToNat_natStr (n : Nat) : digitsToNat (natStr n) = n := by
  have h := (natStr_key n).2 0
  simpa [digitsToNat] using h

theorem natStr_head_isDig (n : Nat) :
    ∃ c cs, natStr n = c :: cs ∧ isDig c = true := by
  obtain ⟨⟨hne, hdig⟩, _⟩ := natStr_key n
  cases hns : natStr n with
  | nil => exact absurd hns hne
  | cons c cs =>
    refine ⟨c, cs, rfl, ?_⟩
    rw [hns, List.all_cons] at hdig
    exact (Bool.and_eq_true _ _).mp hdig |>.1

theorem toNat_lt_of_isDig (c : Char) (h : isDig c = true) :
    48 ≤ c.toNat ∧ c.toNat ≤ 57 := by
  unfold isDig at h
  simp only [Bool.and_eq_true, decide_eq_true_eq] at h
  exact h

theorem digitsURun_digits (cs : List Char) (hall : cs.all isDig = true) :
    ∀ acc, digitsURun acc cs =
      some (List.foldl (fun a c => a * 10 + (c.toNat - 48)) acc cs) := by
  induction cs with
  | nil => intro acc; rfl
  | cons c rest ih =>
    intro acc
    rw [List.all_cons, Bool.and_eq_true] at hall
    obtain ⟨hc, hrest⟩ := hall
    have hcu : c ≠ '_' := by
      intro he
      rw [he] at hc
      exact absurd hc (by decide)
    rw [digitsURun.eq_def]
    simp only [if_neg hcu, if_pos hc, ih hrest, List.foldl_cons]

theorem digitsU_natStr (n : Nat) : digitsU (natStr n) = some n := by
  obtain ⟨⟨hne, hall⟩, hfold⟩ := natStr_key n
  obtain ⟨c, cs, hns, hdigc⟩ := natStr_head_isDig n
  rw [hns]
  rw [hns, List.all_cons, Bool.and_eq_true] at hall
  rw [digitsU, if_pos hdigc, digitsURun_digits cs hall.2]
  have h0 := hfold 0
  rw [hns, List.foldl_cons] at h0
  simp only [Nat.zero_mul, Nat.zero_add] at h0
  rw [h0]

theorem pyIntTransform_ascii (cs : List Char)
    (h : ∀ c ∈ cs, c.toNat < 128) : pyIntTransform cs = some cs := by
  induction cs with
  | nil => rfl
  | cons c rest ih =>
    have hc : pyIntChar c = some c := by
      rw [pyIntChar, if_pos (h c (by simp))]
    rw [pyIntTransform, hc, ih (fun x hx => h x (by simp [hx]))]

theorem dropWhile_no (p : Char → Bool) (cs : List Char)
    (h : ∀ c ∈ cs, p c = false) : cs.dropWhile p = cs := by
  cases cs with
  | nil => rfl
  | cons c rest =>
    rw [List.dropWhile_cons, h c (by simp)]
    simp

theorem stripAsciiWs_no (cs : List Char)
    (h : ∀ c ∈ cs, isAsciiWs c = false) : stripAsciiWs cs = cs := by
  rw [stripAsciiWs, dropWhile_no _ _ h,
      dropWhile_no _ _ (fun c hc => h c (List.mem_reverse.mp hc)),
      List.reverse_reverse]

theorem not_ws_of_isDig (c : Char) (h : isDig c = true) :
    isAsciiWs c = false := by
  obtain ⟨h1, h2⟩ := toNat_lt_of_isDig c h
  unfold isAsciiWs
  simp only [Bool.or_eq_false_iff, Bool.and_eq_false_iff, decide_eq_false_iff_not]
  omega

theorem ascii_of_isDig (c : Char) (h : isDig c = true) : c.toNat < 128 := by
  obtain ⟨-, h2⟩ := toNat_lt_of_isDig c h
  omega

theorem pythonInt_intStr (w : Int) : pythonInt (intStr w) = some w := by
  obtain ⟨⟨hne, hall⟩, -⟩ := natStr_key w.natAbs
  have hdigall := List.all_eq_true.mp hall
  have hU := digitsU_natStr w.natAbs
  unfold intStr
  split_ifs with hneg
  · have hascii : ∀ x ∈ '-' :: natStr w.natAbs, x.toNat < 128 := by
      intro x hx
      rcases List.mem_cons.mp hx with hx | hx
      · rw [hx]; decide
      · exact ascii_of_isDig x (hdigall x hx)
    have hnws : ∀ x ∈ '-' :: natStr w.natAbs, isAsciiWs x = false := by
      intro x hx
      rcases List.mem_cons.mp hx with hx | hx
      · rw [hx]; rfl
      · exact not_ws_of_isDig x (hdigall x hx)
    simp only [pythonInt, pyIntTransform_ascii _ hascii,
      stripAsciiWs_no _ hnws, hU, Option.map_some']
    exact congrArg some (by omega)
  · obtain ⟨c, cs, hns, hdigc⟩ := natStr_head_isDig w.natAbs
    have hascii : ∀ x ∈ natStr w.natAbs, x.toNat < 128 :=
      fun x hx => ascii_of_isDig x (hdigall x hx)
    have hnws : ∀ x ∈ natStr w.natAbs, isAsciiWs x = false :=
      fun x hx => not_ws_of_isDig x (hdigall x hx)
    have hc1 : c ≠ '-' := by
      intro hc; rw [hc] at hdigc; exact absurd hdigc (by decide)
    have hc2 : c ≠ '+' := by
      intro hc; rw [hc] at hdigc; exact absurd hdigc (by decide)
    have hU' : digitsU (c :: cs) = some w.natAbs := by
      rw [← hns]; exact hU
    have ht' : pyIntTransform (c :: cs) = some (c :: cs) := by
      rw [← hns]; exact pyIntTransform_ascii _ hascii
    have hs' : stripAsciiWs (c :: cs) = c :: cs := by
      rw [← hns]; exact stripAsciiWs_no _ hnws
    simp only [pythonInt, hns, ht', hs', if_neg hc1, if_neg hc2, hU',
      Option.map_some']
    have hval : ((w.natAbs : Nat) : Int) = w := by omega
    exact congrArg some hval

/-! ## Helper lemmas: hex strings -/

theorem hexCharVal_of_digit (n : Nat) : n < 16 → hexCharVal (hexDigitChar n) = some n := by
  intro h
  interval_cases n <;> rfl

theorem hexDigitChar_large (n : Nat) (h : 15 ≤ n) : hexDigitChar n = 'f' := by
  unfold hexDigitChar
  have e0 : n ≠ 0 := by omega
  have e1 : n ≠ 1 := by omega
  have e2 : n ≠ 2 := by omega
  have e3 : n ≠ 3 := by omega
  have e4 : n ≠ 4 := by omega
  have e5 : n ≠ 5 := by omega
  have e6 : n ≠ 6 := by omega
  have e7 : n ≠ 7 := by omega
  have e8 : n ≠ 8 := by omega
  have e9 : n ≠ 9 := by omega
  have e10 : n ≠ 10 := by omega
  have e11 : n ≠ 11 := by omega
  have e12 : n ≠ 12 := by omega
  have e13 : n ≠ 13 := by omega
  have e14 : n ≠ 14 := by omega
  simp [e0, e1, e2, e3, e4, e5, e6, e7, e8, e9, e10, e11, e12, e13, e14]

theorem hexDigitChar_ne_colon (n : Nat) : hexDigitChar n ≠ ':' := by
  rcases Nat.lt_or_ge n 15 with h | h
  · interval_cases n <;> decide
  · rw [hexDigitChar_large n h]; decide

theorem hexDigitChar_not_ws (n : Nat) (h : n < 16) :
    isAsciiWs (hexDigitChar n) = false := by
  interval_cases n <;> rfl

theorem hexPairs_hexOfBytes (bs : List Nat) (h : ∀ b ∈ bs, b < 256) :
    hexPairs (hexOfBytes bs) = some bs := by
  induction bs with
  | nil => rfl
  | cons b rest ih =>
    have hb : b < 256 := h b (by simp)
    have hrest : ∀ x ∈ rest, x < 256 := fun x hx => h x (by simp [hx])
    rw [hexOfBytes]
    simp only [hexPairs, hexDigitChar_not_ws (b / 16) (by omega),
      Bool.false_eq_true, if_false,
      hexCharVal_of_digit (b / 16) (by omega),
      hexCharVal_of_digit (b % 16) (by omega), ih hrest, Option.map_some']
    have : b / 16 * 16 + b % 16 = b := by omega
    rw [this]

theorem colon_notin_hexOfBytes (bs : List Nat) : ':' ∉ hexOfBytes bs := by
  induction bs with
  | nil => simp [hexOfBytes]
  | cons b rest ih =>
    rw [hexOfBytes]
    simp only [List.mem_cons]
    push_neg
    exact ⟨fun h => (hexDigitChar_ne_colon (b / 16)) h.symm,
           fun h => (hexDigitChar_ne_colon (b % 16)) h.symm, ih⟩

theorem colon_notin_natStr (n : Nat) : ':' ∉ natStr n := by
  have hdig := (natStr_key n).1.2
  intro hmem
  have := List.all_eq_true.mp hdig ':' hmem
  exact absurd this (by decide)

theorem colon_notin_intStr (w : Int) : ':' ∉ intStr w := by
  unfold intStr
  split_ifs
  · simp only [List.mem_cons]
    push_neg
    exact ⟨by decide, colon_notin_natStr _⟩
  · exact colon_notin_natStr _

/-! ## Helper lemmas: splitting on the colon -/

theorem splitColon_no_colon (b : List Char) (hb : ':' ∉ b) :
    splitColon b = [b] := by
  induction b with
  | nil => rfl
  | cons c rest ih =>
    have hc : c ≠ ':' := fun h => hb (by simp [h])
    have hrest : ':' ∉ rest := fun h => hb (by simp [h])
    rw [splitColon, if_neg hc, ih hrest]

theorem splitColon_append (a b : List Char) (ha : ':' ∉ a) :
    splitColon (a ++ ':' :: b) = a :: splitColon b := by
  induction a with
  | nil => rw [List.nil_append, splitColon, if_pos rfl]
  | cons c rest ih =>
    have hc : c ≠ ':' := fun h => ha (by simp [h])
    have hrest : ':' ∉ rest := fun h => ha (by simp [h])
    rw [List.cons_append, splitColon, if_neg hc, ih hrest]

/-! ## Helper lemmas: prefix dispatch and the hex round trip -/

theorem hasB64Start_cons (c : Char) (rest : List Char)
    (h1 : c ≠ 'E') (h2 : c ≠ 'k') (h3 : c ≠ 'U') :
    hasB64Start (c :: rest) = false := by
  cases rest with
  | nil => rfl
  | cons c2 r2 =>
    simp [hasB64Start, h1, h2, h3]

theorem intStr_head_not_letter (w : Int) :
    ∃ c cs, intStr w = c :: cs ∧ c ≠ 'E' ∧ c ≠ 'k' ∧ c ≠ 'U' := by
  unfold intStr
  split_ifs
  · exact ⟨'-', natStr w.natAbs, rfl, by decide, by decide, by decide⟩
  · obtain ⟨c, cs, hns, hdig⟩ := natStr_head_isDig w.natAbs
    refine ⟨c, cs, hns, ?_, ?_, ?_⟩ <;>
      · intro hc; rw [hc] at hdig; exact absurd hdig (by decide)

/-- Central round-trip fact: rendering a well-formed address to its hex
textual form and parsing it back returns exactly the same address. -/
theorem from_friendly_to_hex (a : Address) (h : a.WF) :
    Address.from_friendly a.to_hex = .ok a := by
  obtain ⟨hlen, hbytes⟩ := h
  obtain ⟨c, cs, hi, hc1, hc2, hc3⟩ := intStr_head_not_letter a.workchain
  have hstart : hasB64Start a.to_hex = false := by
    rw [Address.to_hex, hi, List.cons_append]
    exact hasB64Start_cons c (cs ++ ':' :: hexOfBytes a.raw) hc1 hc2 hc3
  have hmem : ':' ∈ a.to_hex := by
    rw [Address.to_hex]
    simp
  have hsplit : splitColon a.to_hex = [intStr a.workchain, hexOfBytes a.raw] := by
    rw [Address.to_hex, splitColon_append _ _ (colon_notin_intStr _),
        splitColon_no_colon _ (colon_notin_hexOfBytes _)]
  rw [Address.from_friendly, hstart]
  simp only [Bool.false_eq_true, if_false, if_pos hmem, hsplit]
  rw [pythonInt_intStr, hexPairs_hexOfBytes a.raw hbytes]
  simp [Address.make, hlen]

/-! ## Helper lemmas: fixed-width fields -/

theorem u32be_length (n : Nat) : (u32be n).length = 4 := rfl

theorem u64be_length (n : Nat) : (u64be n).length = 8 := rfl

theorem u32be_inj (m n : Nat) (hm : m < 4294967296) (hn : n < 4294967296)
    (h : u32be m = u32be n) : m = n := by
  simp only [u32be, List.cons.injEq, and_true] at h
  omega

theorem u64be_inj (m n : Nat) (hm : m < 18446744073709551616)
    (hn : n < 18446744073709551616) (h : u64be m = u64be n) : m = n := by
  simp only [u64be, List.cons.injEq, and_true] at h
  omega

theorem packU32_ok (n : Int) (h0 : 0 ≤ n) (h1 : n < 4294967296) :
    packU32 n = .ok (u32be n.toNat) := by
  rw [packU32, if_pos ⟨h0, h1⟩]

theorem packU64_ok (n : Int) (h0 : 0 ≤ n) (h1 : n < 18446744073709551616) :
    packU64 n = .ok (u64be n.toNat) := by
  rw [packU64, if_pos ⟨h0, h1⟩]

theorem packU8_ok (n : Int) (h0 : 0 ≤ n) (h1 : n < 256) :
    packU8 n = .ok [n.toNat] := by
  rw [packU8, if_pos ⟨h0, h1⟩]

theorem packI8_ok (n : Int) (h0 : -128 ≤ n) (h1 : n < 128) :
    packI8 n = .ok [(n % 256).toNat] := by
  rw [packI8, if_pos ⟨h0, h1⟩]

theorem emod256_inj (m n : Int) (hm0 : -128 ≤ m) (hm1 : m < 128)
    (hn0 : -128 ≤ n) (hn1 : n < 128) (h : (m % 256).toNat = (n % 256).toNat) :
    m = n := by
  omega

/-! ## Helper lemmas: UTF-8 -/

theorem utf8EncodeChar_ne_nil (n : Nat) : utf8EncodeChar n ≠ [] := by
  unfold utf8EncodeChar
  split_ifs <;> simp

theorem utf8Encode_eq_nil (cs : List Char) : utf8Encode cs = [] ↔ cs = [] := by
  cases cs with
  | nil => simp [utf8Encode]
  | cons c rest =>
    simp only [utf8Encode, List.append_eq_nil]
    constructor
    · rintro ⟨h1, _⟩; exact absurd h1 (utf8EncodeChar_ne_nil _)
    · intro h; exact absurd h (by simp)

theorem utf8DecodeOne_encodeChar (n : Nat) (hn : n < 1114112) (rest : List Nat) :
    utf8DecodeOne (utf8EncodeChar n ++ rest) = some (n, rest) := by
  unfold utf8EncodeChar
  split_ifs with h1 h2 h3
  · simp only [List.cons_append, List.nil_append, utf8DecodeOne]
    rw [if_pos (by omega)]
  · simp only [List.cons_append, List.nil_append, utf8DecodeOne]
    rw [if_neg (by omega), if_pos (by omega)]
    simp only [Option.some.injEq, Prod.mk.injEq, and_true]
    omega
  · simp only [List.cons_append, List.nil_append, utf8DecodeOne]
    rw [if_neg (by omega), if_neg (by omega), if_pos (by omega)]
    simp only [Option.some.injEq, Prod.mk.injEq, and_true]
    omega
  · simp only [List.cons_append, List.nil_append, utf8DecodeOne]
    rw [if_neg (by omega), if_neg (by omega), if_neg (by omega)]
    simp only [Option.some.injEq, Prod.mk.injEq, and_true]
    omega

theorem char_toNat_lt (c : Char) : c.toNat < 1114112 := by
  rcases c.valid with h | ⟨_, h⟩
  · exact lt_trans h (by norm_num)
  · exact h

theorem char_toNat_inj (c1 c2 : Char) (h : c1.toNat = c2.toNat) : c1 = c2 := by
  have hv : c1.val = c2.val := by
    apply UInt32.eq_of_toBitVec_eq
    apply BitVec.eq_of_toNat_eq
    exact h
  exact Char.eq_of_val_eq hv

theorem utf8Encode_inj (cs1 cs2 : List Char)
    (h : utf8Encode cs1 = utf8Encode cs2) : cs1 = cs2 := by
  induction cs1 generalizing cs2 with
  | nil =>
    have := (utf8Encode_eq_nil cs2).mp (by rw [← h]; rfl)
    rw [this]
  | cons c rest ih =>
    cases cs2 with
    | nil =>
      exfalso
      have := (utf8Encode_eq_nil (c :: rest)).mp (by rw [h]; rfl)
      simp at this
    | cons c2 rest2 =>
      rw [utf8Encode, utf8Encode] at h
      have hd1 := utf8DecodeOne_encodeChar c.toNat (char_toNat_lt c) (utf8Encode rest)
      have hd2 := utf8DecodeOne_encodeChar c2.toNat (char_toNat_lt c2) (utf8Encode rest2)
      rw [h] at hd1
      rw [hd2] at hd1
      simp only [Option.some.injEq, Prod.mk.injEq] at hd1
      obtain ⟨hc, hr⟩ := hd1
      rw [char_toNat_inj c c2 hc.symm, ih rest2 hr.symm]

/-! ## Helper lemmas: message encoding -/

theorem to_bytes_ok (m : TransferMessage) (h : MsgValid m) :
    m.to_bytes = .ok (u32be m.seqno.toNat ++ u32be m.valid_until.toNat ++
      [m.send_mode.toNat] ++ [(m.destination.workchain % 256).toNat] ++
      m.destination.raw ++ u64be m.amount.toNat ++ commentBytes m.comment) := by
  obtain ⟨h1, h2, h3, h4, h5, h6, h7, h8, h9, h10, h11⟩ := h
  simp only [TransferMessage.to_bytes,
    packU32_ok m.seqno h1 h2, packU32_ok m.valid_until h3 h4,
    packU8_ok m.send_mode h5 h6, packI8_ok m.destination.workchain h7 h8,
    packU64_ok m.amount h10 h11]

theorem to_bytes_length (m : TransferMessage) (h : MsgValid m) :
    ∃ l, m.to_bytes = .ok l ∧
      l.length = 50 + (commentBytes m.comment).length := by
  refine ⟨_, to_bytes_ok m h, ?_⟩
  simp [List.length_append, u32be_length, u64be_length, h.2.2.2.2.2.2.2.2.1]
  omega

theorem commentBytes_absent (o : Option (List Char)) (h : CommentAbsent o) :
    commentBytes o = [] := by
  cases o with
  | none => rfl
  | some c => unfold CommentAbsent at h; simp [commentBytes, h]

theorem commentBytes_inj (o1 o2 : Option (List Char))
    (h : commentBytes o1 = commentBytes o2)
    (habs : ¬(CommentAbsent o1 ∧ CommentAbsent o2)) : o1 = o2 := by
  cases o1 with
  | none =>
    cases o2 with
    | none => rfl
    | some c2 =>
      by_cases hc2 : c2 = []
      · exact absurd ⟨trivial, hc2⟩ habs
      · rw [commentBytes, commentBytes, if_pos hc2] at h
        exact absurd ((utf8Encode_eq_nil c2).mp h.symm) hc2
  | some c1 =>
    cases o2 with
    | none =>
      by_cases hc1 : c1 = []
      · exact absurd ⟨hc1, trivial⟩ habs
      · rw [commentBytes, commentBytes, if_pos hc1] at h
        exact absurd ((utf8Encode_eq_nil c1).mp h) hc1
    | some c2 =>
      by_cases hc1 : c1 = [] <;> by_cases hc2 : c2 = []
      · exact absurd ⟨hc1, hc2⟩ habs
      · rw [commentBytes, commentBytes, if_neg (by simp [hc1]), if_pos hc2] at h
        exact absurd ((utf8Encode_eq_nil c2).mp h.symm) hc2
      · rw [commentBytes, commentBytes, if_pos hc1, if_neg (by simp [hc2])] at h
        exact absurd ((utf8Encode_eq_nil c1).mp h) hc1
      · rw [commentBytes, commentBytes, if_pos hc1, if_pos hc2] at h
        rw [utf8Encode_inj c1 c2 h]

theorem to_bytes_fields (m1 m2 : TransferMessage)
    (h1 : MsgValid m1) (h2 : MsgValid m2)
    (heq : m1.to_bytes = m2.to_bytes) :
    m1.seqno = m2.seqno ∧ m1.valid_until = m2.valid_until ∧
    m1.send_mode = m2.send_mode ∧
    m1.destination.workchain = m2.destination.workchain ∧
    m1.destination.raw = m2.destination.raw ∧ m1.amount = m2.amount ∧
    commentBytes m1.comment = commentBytes m2.comment := by
  obtain ⟨a1, a2, a3, a4, a5, a6, a7, a8, a9, a10, a11⟩ := h1
  obtain ⟨b1, b2, b3, b4, b5, b6, b7, b8, b9, b10, b11⟩ := h2
  rw [to_bytes_ok m1 ⟨a1, a2, a3, a4, a5, a6, a7, a8, a9, a10, a11⟩,
      to_bytes_ok m2 ⟨b1, b2, b3, b4, b5, b6, b7, b8, b9, b10, b11⟩] at heq
  simp only [Except.ok.injEq, List.append_assoc] at heq
  obtain ⟨e1, heq⟩ := List.append_inj heq rfl
  obtain ⟨e2, heq⟩ := List.append_inj heq rfl
  obtain ⟨e3, heq⟩ := List.append_inj heq rfl
  obtain ⟨e4, heq⟩ := List.append_inj heq rfl
  obtain ⟨e5, heq⟩ := List.append_inj heq (by rw [a9, b9])
  obtain ⟨e6, e7⟩ := List.append_inj heq rfl
  refine ⟨?_, ?_, ?_, ?_, e5, ?_, e7⟩
  · have := u32be_inj m1.seqno.toNat m2.seqno.toNat (by omega) (by omega) e1
    omega
  · have := u32be_inj m1.valid_until.toNat m2.valid_until.toNat
      (by omega) (by omega) e2
    omega
  · simp only [List.cons.injEq, and_true] at e3
    omega
  · simp only [List.cons.injEq, and_true] at e4
    exact emod256_inj _ _ a7 a8 b7 b8 e4
  · have := u64be_inj m1.amount.toNat m2.amount.toNat (by omega) (by omega) e6
    omega

/-! ## Helper lemmas: construction and base64 decoding -/

/-- The mock ledger query: `get_seqno` on the wallet's own rendered
address parses successfully (the hex round trip) and returns the mock
seqno 0. -/
theorem get_seqno_to_hex (client : WalletClient) (a : Address) (h : a.WF) :
    client.get_seqno a.to_hex = .ok 0 := by
  rw [WalletClient.get_seqno, WalletClient.get_wallet_state,
      from_friendly_to_hex a h]

/-! ## Claim theorems -/

/-- Claim C6: every wallet holding no key pair (a read-only wallet) has
`can_sign = false`, and both `create_transfer_message` (for every params)
and `sign` (for every hash) fail with the signature-capability error
(`SignatureError` in the code). -/
theorem c6_read_only_wallet (w : Wallet) (h : w.key_pair = none) :
    w.can_sign = false ∧
    (∀ params : TransferParams,
      w.create_transfer_message params = .error .signatureError) ∧
    (∀ (seed : Nat → Nat) (message_hash : List Nat),
      w.sign seed message_hash = .error .signatureError) := by
  refine ⟨by simp [Wallet.can_sign, h], ?_, ?_⟩
  · intro params
    simp [Wallet.create_transfer_message, Wallet.can_sign, h]
  · intro seed message_hash
    simp [Wallet.sign, h]

theorem c6_read_only_wallet_witness :
    (Wallet.read_only ⟨List.replicate 32 0, 0⟩).can_sign = false ∧
    (Wallet.read_only ⟨List.replicate 32 0, 0⟩).create_transfer_message
      ⟨⟨List.replicate 32 0, 0⟩, 1, none, 3, 1700000000⟩ =
      .error .signatureError ∧
    (Wallet.read_only ⟨List.replicate 32 0, 0⟩).sign (fun _ => 0)
      (List.replicate 32 0) = .error .signatureError :=
  ⟨(c6_read_only_wallet _ rfl).1,
   (c6_read_only_wallet _ rfl).2.1 _,
   (c6_read_only_wallet _ rfl).2.2 _ _⟩

/-- Claim C7: on a signing-capable wallet, `sign` fails with the
length-validation `ValueError` for every hash whose length is not 32
bytes, and succeeds returning exactly 64 bytes for every 32-byte hash. -/
theorem c7_sign_lengths (w : Wallet) (h : w.can_sign = true)
    (seed : Nat → Nat) (message_hash : List Nat) :
    (message_hash.length ≠ 32 →
      w.sign seed message_hash =
        .error (.valueError "Message hash must be 32 bytes")) ∧
    (message_hash.length = 32 →
      ∃ signature, w.sign seed message_hash = .ok signature ∧
        signature.length = 64) := by
  rcases hkp : w.key_pair with _ | kp
  · rw [Wallet.can_sign, hkp] at h
    simp at h
  · constructor
    · intro hne
      rw [Wallet.sign, hkp, if_pos hne]
    · intro he
      rw [Wallet.sign, hkp, if_neg (by omega)]
      exact ⟨_, rfl, by simp⟩

theorem c7_sign_lengths_witness :
    (Wallet.new ⟨List.replicate 32 0, 0⟩
        (some ⟨List.replicate 32 1, List.replicate 32 2⟩)).can_sign = true ∧
    (Wallet.new ⟨List.replicate 32 0, 0⟩
        (some ⟨List.replicate 32 1, List.replicate 32 2⟩)).sign (fun _ => 0)
      (List.replicate 31 0) =
      .error (.valueError "Message hash must be 32 bytes") :=
  ⟨rfl, (c7_sign_lengths
      (Wallet.new ⟨List.replicate 32 0, 0⟩
        (some ⟨List.replicate 32 1, List.replicate 32 2⟩)) rfl
      (fun _ => 0) (List.replicate 31 0)).1 (by decide)⟩

/-- Claim C10: a wallet obtained from the constructor, from
`Wallet.read_only`, or from `WalletBuilder.build` has cached seqno 0,
for every address and optional key pair; and the seqno setter is exactly
the update of the `seqno` field, leaving address and key pair alone. -/
theorem c10_fresh_wallet_seqno_zero :
    (∀ (a : Address) (kp : Option KeyPair), (Wallet.new a kp).seqno = 0) ∧
    (∀ a : Address, (Wallet.read_only a).seqno = 0) ∧
    (∀ (b : WalletBuilder) (w : Wallet), b.build = .ok w → w.seqno = 0) ∧
    (∀ (w : Wallet) (v : Int), w.set_seqno v = { w with seqno := v }) := by
  refine ⟨fun a kp => rfl, fun a => rfl, ?_, fun w v => rfl⟩
  intro b w hb
  rcases hba : b.builderAddress with _ | a
  · rw [WalletBuilder.build, hba] at hb
    exact absurd hb (by simp)
  · rw [WalletBuilder.build, hba] at hb
    simp only [Except.ok.injEq] at hb
    rw [← hb]
    rfl

theorem c10_fresh_wallet_seqno_zero_witness :
    ((WalletBuilder.new.withAddress ⟨List.replicate 32 0, 0⟩).build =
      .ok (Wallet.new ⟨List.replicate 32 0, 0⟩ none)) ∧
    (Wallet.new ⟨List.replicate 32 0, 0⟩ none).seqno = 0 :=
  ⟨rfl, c10_fresh_wallet_seqno_zero.2.2.1
    (WalletBuilder.new.withAddress ⟨List.replicate 32 0, 0⟩)
    (Wallet.new ⟨List.replicate 32 0, 0⟩ none) rfl⟩

/-- Claim C2: `send` on a wallet that cannot sign fails with the
signature-capability error immediately: the step trace is empty (so in
particular no `get_seqno` / `get_wallet_state` ledger query and no
broadcast happens) and the wallet comes back unchanged, cached seqno
included. -/
theorem c2_send_read_only_fail_fast (client : WalletClient)
    (sha256 : List Nat → List Nat) (seed : Nat → Nat) (wallet : Wallet)
    (params : TransferParams) (h : wallet.can_sign = false) :
    client.send sha256 seed wallet params =
      (.error .signatureError, [], wallet) := by
  rw [WalletClient.send, if_pos (by simp [h])]

theorem c2_send_read_only_fail_fast_witness :
    (Wallet.read_only ⟨List.replicate 32 0, 0⟩).can_sign = false ∧
    WalletClient.send ⟨.testnet⟩ (fun _ => List.replicate 32 0) (fun _ => 0)
      (Wallet.read_only ⟨List.replicate 32 0, 0⟩)
      ⟨⟨List.replicate 32 0, 0⟩, 1, none, 3, 1700000000⟩ =
      (.error .signatureError, [], Wallet.read_only ⟨List.replicate 32 0, 0⟩) :=
  ⟨rfl, c2_send_read_only_fail_fast _ _ _ _ _ rfl⟩

/-- Claim C1: for every message whose fields are in the ranges the struct
formats demand, `to_bytes` is exactly the concatenation, with no length
markers: seqno as 4 big-endian bytes, valid_until as 4 big-endian bytes,
send_mode as 1 byte, workchain as 1 signed byte, the 32 raw address
bytes, amount as 8 big-endian bytes, then the UTF-8 comment bytes only
when the comment is present and non-empty; without a comment the
encoding is exactly 50 bytes. -/
theorem c1_encoding_layout (m : TransferMessage) (h : MsgValid m) :
    m.to_bytes = .ok (
      u32be m.seqno.toNat ++ u32be m.valid_until.toNat ++
      [m.send_mode.toNat] ++ [(m.destination.workchain % 256).toNat] ++
      m.destination.raw ++ u64be m.amount.toNat ++
      (match m.comment with
       | some c => if c ≠ [] then utf8Encode c else []
       | none => [])) ∧
    (m.comment = none → ∃ l, m.to_bytes = .ok l ∧ l.length = 50) := by
  constructor
  · exact to_bytes_ok m h
  · intro hc
    obtain ⟨l, hl, hlen⟩ := to_bytes_length m h
    refine ⟨l, hl, ?_⟩
    rw [hlen, hc]
    rfl

theorem c1_encoding_layout_witness :
    MsgValid ⟨5, 1700000000, 3, ⟨List.replicate 32 171, 0⟩, 1000000000, none⟩ ∧
    (∃ l, TransferMessage.to_bytes
        ⟨5, 1700000000, 3, ⟨List.replicate 32 171, 0⟩, 1000000000, none⟩ =
        .ok l ∧ l.length = 50) :=
  ⟨by decide,
   (c1_encoding_layout
      ⟨5, 1700000000, 3, ⟨List.replicate 32 171, 0⟩, 1000000000, none⟩
      (by decide)).2 rfl⟩

/-- Claim C4: for every address whose payload is 32 bytes (with byte
values, as Python's `bytes` guarantees) and whose workchain is any
integer, rendering with `to_hex` and parsing back with `from_friendly`
returns an equal address. -/
theorem c4_hex_round_trip (a : Address) (h : a.WF) :
    Address.from_friendly a.to_hex = .ok a :=
  from_friendly_to_hex a h

theorem c4_hex_round_trip_witness :
    Address.WF ⟨List.replicate 32 171, -1⟩ ∧
    Address.from_friendly (Address.to_hex ⟨List.replicate 32 171, -1⟩) =
      .ok ⟨List.replicate 32 171, -1⟩ :=
  ⟨by decide, c4_hex_round_trip ⟨List.replicate 32 171, -1⟩ (by decide)⟩

/-- Counterexample to claim C8 as stated: the two messages below differ
in exactly one field (the comment: `None` versus the empty string `""`),
yet their encodings are identical, because the source appends the
comment only when it is truthy and both values are falsy. -/
theorem c8_counterexample :
    (⟨0, 0, 0, ⟨List.replicate 32 0, 0⟩, 0, none⟩ : TransferMessage).comment ≠
      (⟨0, 0, 0, ⟨List.replicate 32 0, 0⟩, 0, some []⟩ : TransferMessage).comment ∧
    (⟨0, 0, 0, ⟨List.replicate 32 0, 0⟩, 0, none⟩ : TransferMessage).seqno =
      (⟨0, 0, 0, ⟨List.replicate 32 0, 0⟩, 0, some []⟩ : TransferMessage).seqno ∧
    (⟨0, 0, 0, ⟨List.replicate 32 0, 0⟩, 0, none⟩ : TransferMessage).valid_until =
      (⟨0, 0, 0, ⟨List.replicate 32 0, 0⟩, 0, some []⟩ : TransferMessage).valid_until ∧
    (⟨0, 0, 0, ⟨List.replicate 32 0, 0⟩, 0, none⟩ : TransferMessage).send_mode =
      (⟨0, 0, 0, ⟨List.replicate 32 0, 0⟩, 0, some []⟩ : TransferMessage).send_mode ∧
    (⟨0, 0, 0, ⟨List.replicate 32 0, 0⟩, 0, none⟩ : TransferMessage).destination =
      (⟨0, 0, 0, ⟨List.replicate 32 0, 0⟩, 0, some []⟩ : TransferMessage).destination ∧
    (⟨0, 0, 0, ⟨List.replicate 32 0, 0⟩, 0, none⟩ : TransferMessage).amount =
      (⟨0, 0, 0, ⟨List.replicate 32 0, 0⟩, 0, some []⟩ : TransferMessage).amount ∧
    TransferMessage.to_bytes ⟨0, 0, 0, ⟨List.replicate 32 0, 0⟩, 0, none⟩ =
      TransferMessage.to_bytes ⟨0, 0, 0, ⟨List.replicate 32 0, 0⟩, 0, some []⟩ := by
  refine ⟨by decide, rfl, rfl, rfl, rfl, rfl, rfl⟩

/-- Claim C8 amended: `to_bytes` is a deterministic pure function of the
fields, and changing exactly one field changes the encoding — except
that `None` and the empty-string comment (both treated as absent) encode
identically; the comment clause therefore holds whenever the two comment
values are not both absent. -/
theorem c8_encode_field_sensitivity (m1 m2 : TransferMessage)
    (h1 : MsgValid m1) (h2 : MsgValid m2) :
    (m1 = m2 → m1.to_bytes = m2.to_bytes) ∧
    (m1.valid_until = m2.valid_until → m1.send_mode = m2.send_mode →
      m1.destination = m2.destination → m1.amount = m2.amount →
      m1.comment = m2.comment → m1.seqno ≠ m2.seqno →
      m1.to_bytes ≠ m2.to_bytes) ∧
    (m1.seqno = m2.seqno → m1.send_mode = m2.send_mode →
      m1.destination = m2.destination → m1.amount = m2.amount →
      m1.comment = m2.comment → m1.valid_until ≠ m2.valid_until →
      m1.to_bytes ≠ m2.to_bytes) ∧
    (m1.seqno = m2.seqno → m1.valid_until = m2.valid_until →
      m1.destination = m2.destination → m1.amount = m2.amount →
      m1.comment = m2.comment → m1.send_mode ≠ m2.send_mode →
      m1.to_bytes ≠ m2.to_bytes) ∧
    (m1.seqno = m2.seqno → m1.valid_until = m2.valid_until →
      m1.send_mode = m2.send_mode → m1.destination.raw = m2.destination.raw →
      m1.amount = m2.amount → m1.comment = m2.comment →
      m1.destination.workchain ≠ m2.destination.workchain →
      m1.to_bytes ≠ m2.to_bytes) ∧
    (m1.seqno = m2.seqno → m1.valid_until = m2.valid_until →
      m1.send_mode = m2.send_mode →
      m1.destination.workchain = m2.destination.workchain →
      m1.amount = m2.amount → m1.comment = m2.comment →
      m1.destination.raw ≠ m2.destination.raw →
      m1.to_bytes ≠ m2.to_bytes) ∧
    (m1.seqno = m2.seqno → m1.valid_until = m2.valid_until →
      m1.send_mode = m2.send_mode → m1.destination = m2.destination →
      m1.comment = m2.comment → m1.amount ≠ m2.amount →
      m1.to_bytes ≠ m2.to_bytes) ∧
    (m1.seqno = m2.seqno → m1.valid_until = m2.valid_until →
      m1.send_mode = m2.send_mode → m1.destination = m2.destination →
      m1.amount = m2.amount →
      ¬(CommentAbsent m1.comment ∧ CommentAbsent m2.comment) →
      m1.comment ≠ m2.comment → m1.to_bytes ≠ m2.to_bytes) := by
  refine ⟨fun he => by rw [he], ?_, ?_, ?_, ?_, ?_, ?_, ?_⟩
  · intro e1 e2 e3 e4 e5 hne hb
    exact hne (to_bytes_fields m1 m2 h1 h2 hb).1
  · intro e1 e2 e3 e4 e5 hne hb
    exact hne (to_bytes_fields m1 m2 h1 h2 hb).2.1
  · intro e1 e2 e3 e4 e5 hne hb
    exact hne (to_bytes_fields m1 m2 h1 h2 hb).2.2.1
  · intro e1 e2 e3 e4 e5 e6 hne hb
    exact hne (to_bytes_fields m1 m2 h1 h2 hb).2.2.2.1
  · intro e1 e2 e3 e4 e5 e6 hne hb
    exact hne (to_bytes_fields m1 m2 h1 h2 hb).2.2.2.2.1
  · intro e1 e2 e3 e4 e5 hne hb
    exact hne (to_bytes_fields m1 m2 h1 h2 hb).2.2.2.2.2.1
  · intro e1 e2 e3 e4 e5 habs hne hb
    exact hne (commentBytes_inj m1.comment m2.comment
      (to_bytes_fields m1 m2 h1 h2 hb).2.2.2.2.2.2 habs)

theorem c8_encode_field_sensitivity_witness :
    MsgValid ⟨1, 0, 0, ⟨List.replicate 32 0, 0⟩, 0, none⟩ ∧
    MsgValid ⟨2, 0, 0, ⟨List.replicate 32 0, 0⟩, 0, none⟩ ∧
    TransferMessage.to_bytes ⟨1, 0, 0, ⟨List.replicate 32 0, 0⟩, 0, none⟩ ≠
      TransferMessage.to_bytes ⟨2, 0, 0, ⟨List.replicate 32 0, 0⟩, 0, none⟩ :=
  ⟨by decide, by decide,
   (c8_encode_field_sensitivity
      ⟨1, 0, 0, ⟨List.replicate 32 0, 0⟩, 0, none⟩
      ⟨2, 0, 0, ⟨List.replicate 32 0, 0⟩, 0, none⟩
      (by decide) (by decide)).2.1 rfl rfl rfl rfl rfl (by decide)⟩

/-- Claim C3: on a signing-capable wallet (and params in the packable
ranges), `send` performs exactly the steps, in order: fetch the seqno
from the ledger, build the message, hash it, sign the hash — and the
message whose hash is signed carries the freshly fetched seqno (0 from
the mock ledger), not the wallet's pre-call cached value, whatever that
value was: the trace and result are independent of `wallet.seqno`, and
whenever the cached value differs from the fetched one the signed
message's seqno differs from it. -/
theorem c3_send_refreshes_seqno (client : WalletClient)
    (sha256 : List Nat → List Nat) (seed : Nat → Nat) (wallet : Wallet)
    (params : TransferParams)
    (hcs : wallet.can_sign = true) (hwf : wallet.address.WF)
    (hsha : ∀ bs, (sha256 bs).length = 32)
    (hvu0 : 0 ≤ params.valid_until) (hvu1 : params.valid_until < 4294967296)
    (hsm0 : 0 ≤ params.send_mode) (hsm1 : params.send_mode < 256)
    (hwc0 : -128 ≤ params.to.workchain) (hwc1 : params.to.workchain < 128)
    (hraw : params.to.raw.length = 32)
    (ham0 : 0 ≤ params.amount) (ham1 : params.amount < 18446744073709551616) :
    client.send sha256 seed wallet params =
      (.ok { hash := hexOfBytes (sha256 (sendEncodedBytes params)), lt := 0,
             fee := 0, success := true, error := none },
       [SendStep.fetchSeqno wallet.address.to_hex 0,
        SendStep.buildMessage ⟨0, params.valid_until, params.send_mode,
          params.to, params.amount, params.comment⟩,
        SendStep.hashMessage (sha256 (sendEncodedBytes params)),
        SendStep.signHash (sha256 (sendEncodedBytes params))
          ((List.range 64).map (fun i => seed i % 256))],
       wallet.set_seqno 0) ∧
    (⟨0, params.valid_until, params.send_mode, params.to, params.amount,
       params.comment⟩ : TransferMessage).seqno = 0 ∧
    (wallet.seqno ≠ 0 →
      (⟨0, params.valid_until, params.send_mode, params.to, params.amount,
         params.comment⟩ : TransferMessage).seqno ≠ wallet.seqno) := by
  obtain ⟨kp, hkp⟩ : ∃ kp, wallet.key_pair = some kp := by
    rcases hk : wallet.key_pair with _ | kp
    · rw [Wallet.can_sign, hk] at hcs
      simp at hcs
    · exact ⟨kp, rfl⟩
  have hcs' : (wallet.set_seqno 0).can_sign = true := by
    simp [Wallet.can_sign, Wallet.set_seqno, hkp]
  have hmv : MsgValid ⟨0, params.valid_until, params.send_mode, params.to,
      params.amount, params.comment⟩ := by
    unfold MsgValid
    exact ⟨by norm_num, by norm_num, hvu0, hvu1, hsm0, hsm1, hwc0, hwc1, hraw,
           ham0, ham1⟩
  have henc := to_bytes_ok _ hmv
  have hseq := get_seqno_to_hex client wallet.address hwf
  refine ⟨?_, rfl, fun hne => Ne.symm hne⟩
  rw [WalletClient.send, if_neg (by simp [hcs])]
  simp only [hseq]
  simp [Wallet.set_seqno, hkp, Wallet.create_transfer_message, Wallet.can_sign,
        TransferMessage.hashWith, henc, Wallet.sign, hsha, sendEncodedBytes]

theorem c3_send_refreshes_seqno_witness :
    (⟨⟨List.replicate 32 171, 0⟩, some ⟨List.replicate 32 1, List.replicate 32 2⟩,
        99⟩ : Wallet).seqno = 99 ∧
    WalletClient.send ⟨.testnet⟩ (fun _ => List.replicate 32 0) (fun _ => 0)
      ⟨⟨List.replicate 32 171, 0⟩,
       some ⟨List.replicate 32 1, List.replicate 32 2⟩, 99⟩
      ⟨⟨List.replicate 32 171, 0⟩, 1, none, 3, 1700000000⟩ =
      (.ok { hash := hexOfBytes (List.replicate 32 0), lt := 0, fee := 0,
             success := true, error := none },
       [SendStep.fetchSeqno (Address.to_hex ⟨List.replicate 32 171, 0⟩) 0,
        SendStep.buildMessage
          ⟨0, 1700000000, 3, ⟨List.replicate 32 171, 0⟩, 1, none⟩,
        SendStep.hashMessage (List.replicate 32 0),
        SendStep.signHash (List.replicate 32 0)
          ((List.range 64).map (fun _ => 0 % 256))],
       (⟨⟨List.replicate 32 171, 0⟩,
         some ⟨List.replicate 32 1, List.replicate 32 2⟩, 99⟩ : Wallet).set_seqno
         0) :=
  ⟨rfl,
   (c3_send_refreshes_seqno ⟨.testnet⟩ (fun _ => List.replicate 32 0)
      (fun _ => 0)
      ⟨⟨List.replicate 32 171, 0⟩,
       some ⟨List.replicate 32 1, List.replicate 32 2⟩, 99⟩
      ⟨⟨List.replicate 32 171, 0⟩, 1, none, 3, 1700000000⟩
      rfl (by decide) (fun bs => rfl) (by decide) (by decide) (by decide)
      (by decide) (by decide) (by decide) (by decide) (by decide)
      (by decide)).1⟩

end TonWallet
